import Mathlib

/-
Verification of the sendspin-gui state-reconciliation and UI-bridge layer.

The development shallowly embeds the parts of src/sendspin_gui/app.py and
src/sendspin_gui/components/stream_panel.py that the properties below are
about.  The live domain graph owned by the aiosendspin server (an external
collaborator of this repository) is represented relationally: a client's
group back-reference is carried as the referenced group's id, and
dereferencing the back-reference is a lookup among the live group objects.
Python dict insertion-order semantics are modelled by order-preserving list
folds.  Event-log timestamps (datetime.now) are abstracted away: a log entry
is the (message, level) pair handed to EventLog.add_event.
-/

namespace SendspinGui

/-- Role values are carried as their string values: app.py maps r.value over
client.roles when building a client snapshot. -/
abbrev Role := String

/-- Live domain group object (aiosendspin SendspinGroup) as read by app.py:
group_id, group_name, state (read through str()), volume, muted, and the
member client ids in insertion order (group.clients). -/
structure SendspinGroup where
  group_id : String
  group_name : String
  state : String
  volume : Int
  muted : Bool
  clients : List String
deriving DecidableEq, Repr

/-- Live domain client object (aiosendspin SendspinClient) as read by app.py:
client_id, name, roles, and the group back-reference, represented by the id
of the referenced live group (none when ungrouped). -/
structure SendspinClient where
  client_id : String
  name : String
  roles : List Role
  group_id : Option String
deriving DecidableEq, Repr

/-- The live domain graph owned by the server: server.clients in
server-reported order, plus the live group objects reachable from them. -/
structure SendspinServer where
  clients : List SendspinClient
  groups : List SendspinGroup
deriving DecidableEq, Repr

/-- server.get_client(cid): look a client up by id. -/
def SendspinServer.get_client (d : SendspinServer) (cid : String) : Option SendspinClient :=
  d.clients.find? (fun c => c.client_id == cid)

/-- Dereference a group id to the live group object carrying it. -/
def SendspinServer.findGroup (d : SendspinServer) (gid : String) : Option SendspinGroup :=
  d.groups.find? (fun g => g.group_id == gid)

/-- client.group: the live group object the client's back-reference points to,
or none for an ungrouped client. -/
def SendspinServer.clientGroup (d : SendspinServer) (c : SendspinClient) : Option SendspinGroup :=
  c.group_id.bind d.findGroup

/-- UI-facing client snapshot row built by app._refresh_clients:
keys id, name, roles, group_id. -/
structure ClientSnapshot where
  id : String
  name : String
  roles : List Role
  group_id : Option String
deriving DecidableEq, Repr

/-- UI-facing group snapshot row built by app._refresh_groups:
keys id, name, state, volume, muted, and the member ids (key "clients" in the
code, memberIds in the specification's vocabulary). -/
structure GroupSnapshot where
  id : String
  name : String
  state : String
  volume : Int
  muted : Bool
  memberIds : List String
deriving DecidableEq, Repr

/-- The kind of entity an event listener was attached to. -/
inductive SubKind where
  | server
  | client
  | group
deriving DecidableEq, Repr

/-- An unsubscribe token, tagged by the entity whose add_event_listener
produced it.  app.py keeps these in the self._event_unsubscribers list. -/
abbrev Subscription := SubKind × String

/-- UI-side application state of SendspinGUIApp: the server reference, the
unsubscriber registry, the tokens already invoked, the two panel snapshots,
the event log as (message, level) pairs, the server panel's running toggle,
and the status bar text. -/
structure AppState where
  server : Option SendspinServer
  event_unsubscribers : List Subscription
  invoked_unsubs : List Subscription
  clients_panel : List ClientSnapshot
  groups_panel : List GroupSnapshot
  event_log : List (String × String)
  server_running : Bool
  status : String
deriving DecidableEq, Repr

/-- app._log_event: append a (message, level) entry to the event log.
The wall-clock timestamp prefix is abstracted away. -/
def log_event (a : AppState) (message level : String) : AppState :=
  { a with event_log := a.event_log ++ [(message, level)] }

/-- The client snapshot row app._refresh_clients builds for one client:
id, name, roles, and the id of client.group when present. -/
def mkClientSnapshot (c : SendspinClient) : ClientSnapshot :=
  { id := c.client_id, name := c.name, roles := c.roles, group_id := c.group_id }

/-- app._refresh_clients: with no active server, clear the clients panel and
return.  Otherwise scan server.clients in order; for each client a fresh
event listener is attached (appending its unsubscribe token to the registry)
and a snapshot row is built; finally the clients panel is replaced wholesale.
Note the code attaches a listener on every call: the comment in the source
announces deduplication but no check is performed. -/
def refresh_clients (a : AppState) : AppState :=
  match a.server with
  | none => { a with clients_panel := [] }
  | some d =>
      { a with
        event_unsubscribers :=
          a.event_unsubscribers ++ d.clients.map (fun c => (SubKind.client, c.client_id)),
        clients_panel := d.clients.map mkClientSnapshot }

/-- One step of app._refresh_groups' scan: if the client has a group whose id
is not yet a key of the dict, insert it (dicts preserve insertion order). -/
def collectStep (d : SendspinServer) (acc : List SendspinGroup) (c : SendspinClient) :
    List SendspinGroup :=
  match d.clientGroup c with
  | none => acc
  | some g => if acc.any (fun h => h.group_id == g.group_id) then acc else acc ++ [g]

/-- The unique groups collected from the clients, in first-encountered order. -/
def collectGroups (d : SendspinServer) : List SendspinGroup :=
  d.clients.foldl (collectStep d) []

/-- The group snapshot row app._refresh_groups builds for one group. -/
def mkGroupSnapshot (g : SendspinGroup) : GroupSnapshot :=
  { id := g.group_id, name := g.group_name, state := g.state,
    volume := g.volume, muted := g.muted, memberIds := g.clients }

/-- The groups_data list app._refresh_groups hands to the groups panel. -/
def refreshGroupsList (d : SendspinServer) : List GroupSnapshot :=
  (collectGroups d).map mkGroupSnapshot

/-- app._refresh_groups: with no active server, clear the groups panel and
return; otherwise rebuild the groups panel wholesale from the scan. -/
def refresh_groups (a : AppState) : AppState :=
  match a.server with
  | none => { a with groups_panel := [] }
  | some d => { a with groups_panel := refreshGroupsList d }

/-- One step of first-occurrence deduplication, mirroring insertion into a
Python dict keyed by id. -/
def dedupStep (acc : List String) (x : String) : List String :=
  if x ∈ acc then acc else acc ++ [x]

/-- First-occurrence deduplication of a list of ids, preserving the order in
which ids are first encountered. -/
def dedupFirst (l : List String) : List String :=
  l.foldl dedupStep []

/-- The sequence of group ids encountered while scanning the clients in
server-reported order: one entry per client whose back-reference
dereferences to a live group. -/
def scanIds (d : SendspinServer) : List String :=
  d.clients.filterMap (fun c => (d.clientGroup c).map SendspinGroup.group_id)

/-- The on_complete callback of app._start_server, as a function of the
delivered error half of the completion (the submitted coroutine returns None,
so the result half is always null).  On error: log and reset the toggle; on
success: log, update the status bar and set the toggle. -/
def start_server_on_complete (a : AppState) (port : Nat) (server_id server_name : String)
    (error : Option String) : AppState :=
  match error with
  | some e =>
      { log_event a ("Failed to start server: " ++ e) "error" with server_running := false }
  | none =>
      { log_event a ("Server started on port " ++ toString port) "success" with
        status := "Server running: " ++ server_name ++ " (" ++ server_id ++ ") on port "
          ++ toString port,
        server_running := true }

/-- The on_complete callback of app._stop_server: invoke every outstanding
unsubscriber and clear the registry, drop the server reference, log, reset
the status bar and running toggle, and clear both panel snapshots.  Invoking
a token is modelled by moving it to invoked_unsubs. -/
def stop_server_on_complete (a : AppState) (error : Option String) : AppState :=
  let a1 : AppState :=
    { a with
      invoked_unsubs := a.invoked_unsubs ++ a.event_unsubscribers,
      event_unsubscribers := [],
      server := none }
  let a2 : AppState :=
    match error with
    | some e => log_event a1 ("Error stopping server: " ++ e) "error"
    | none => log_event a1 "Server stopped" "info"
  { a2 with
    status := "Server stopped",
    server_running := false,
    clients_panel := [],
    groups_panel := [] }

/-- Modelled from the spec: group.addClient(client) of the external
aiosendspin collaborator (its implementation is not part of this repository;
the specification lists it as a consumed capability).  It sets the client's
group back-reference to this group and appends the client to the group's
member list. -/
def add_client (d : SendspinServer) (gid cid : String) : SendspinServer :=
  { clients := d.clients.map
      (fun c => if c.client_id == cid then { c with group_id := some gid } else c),
    groups := d.groups.map
      (fun g => if g.group_id == gid then { g with clients := g.clients ++ [cid] } else g) }

/-- Modelled from the spec: client.leaveGroup() / client.ungroup() of the
external aiosendspin collaborator: clears the client's back-reference and
removes the client from every group member list. -/
def ungroup (d : SendspinServer) (cid : String) : SendspinServer :=
  { clients := d.clients.map
      (fun c => if c.client_id == cid then { c with group_id := none } else c),
    groups := d.groups.map
      (fun g => { g with clients := g.clients.filter (fun x => x != cid) }) }

/-- The coroutine submitted by app._create_group, at the domain level: a fresh
group object is constructed (fresh id gid; the constructor-default state,
volume and muted values of the external library are passed as parameters),
then each listed client that get_client finds is added to it in order. -/
def create_group (d : SendspinServer) (gid gname st : String) (vol : Int) (mtd : Bool)
    (cids : List String) : SendspinServer :=
  cids.foldl
    (fun acc cid => if (acc.get_client cid).isSome then add_client acc gid cid else acc)
    { clients := d.clients, groups := d.groups ++ [⟨gid, gname, st, vol, mtd, []⟩] }

/-- The cumulative effect of the group-creation loop on one client: clients
whose id is among the listed ids end up pointing at the new group, the rest
are untouched. -/
def updateIfMem (gid : String) (cids : List String) (c : SendspinClient) : SendspinClient :=
  if c.client_id ∈ cids then { c with group_id := some gid } else c

/-- StreamPanel._stream_file of components/stream_panel.py: returns the
(file_path, group_id) pair the stream-file callback is invoked with, or none
when the press is a silent no-op.  The Path(file_path).exists() filesystem
check is abstracted as the predicate fsExists; the two text entries are the
raw entry contents. -/
def stream_file (fileEntry groupEntry : String) (fsExists : String → Bool) :
    Option (String × String) :=
  let file_path := fileEntry.trim
  let group_id := if groupEntry.trim == "" then "all" else groupEntry.trim
  if file_path == "" then none
  else if !(fsExists file_path) then none
  else some (file_path, group_id)

/-- One demo client used for concrete evaluations. -/
def demoClient : SendspinClient := ⟨"c1", "Client One", [], none⟩

/-- A demo server reporting exactly one client and no groups. -/
def demoServer : SendspinServer := ⟨[demoClient], []⟩

/-- A demo application state with an active server and an empty registry. -/
def demoApp : AppState :=
  ⟨some demoServer, [], [], [], [], [], true, "Server running"⟩

/-- A demo application state with no active server. -/
def demoAppStopped : AppState :=
  ⟨none, [], [], [⟨"c9", "Stale", [], none⟩], [], [], false, "Server stopped"⟩

/-- C1: with one client connected, two consecutive invocations of the
client-list refresh leave two live listeners attached to that one client —
the registry holds two unsubscribe tokens for the pair (client, c1) — so the
code violates the at-most-one-live-subscription-per-entity invariant: the
source comment announces subscribe-if-not-already but performs no check. -/
theorem claim_C1_duplicate_listener :
    ((refresh_clients (refresh_clients demoApp)).event_unsubscribers.count
      (SubKind.client, "c1")) = 2 := by
  decide

/-- C5: the group refresh is idempotent — running it twice with no
intervening domain change produces the same application state (in particular
the same groups-panel snapshot) as running it once, because it only reads the
server reference and rebuilds the panel from it. -/
theorem claim_C5_refresh_groups_idempotent (a : AppState) :
    refresh_groups (refresh_groups a) = refresh_groups a := by
  cases h : a.server with
  | none => simp [refresh_groups, h]
  | some d => simp [refresh_groups, h]

/-- C6: when the server-start submission completes with an error, the UI
appends the error-level log entry "Failed to start server: <error>" and
resets the running toggle to false; when it completes successfully the
running toggle is set to true.  (The submitted coroutine returns None, so the
result half of the completion is always null by construction.) -/
theorem claim_C6_start_server_completion (a : AppState) (port : Nat)
    (sid sname : String) :
    (∀ e : String,
        (start_server_on_complete a port sid sname (some e)).event_log
          = a.event_log ++ [("Failed to start server: " ++ e, "error")]
        ∧ (start_server_on_complete a port sid sname (some e)).server_running = false)
    ∧ (start_server_on_complete a port sid sname none).server_running = true := by
  constructor
  · intro e
    constructor
    · simp [start_server_on_complete, log_event]
    · rfl
  · rfl

/-- C7: invoking either refresh with no active server clears the
corresponding panel snapshot to empty and changes nothing else — no error, no
listener attached, every other field of the application state untouched. -/
theorem claim_C7_refresh_without_server (a : AppState) (h : a.server = none) :
    refresh_clients a = { a with clients_panel := [] }
    ∧ refresh_groups a = { a with groups_panel := [] } := by
  constructor
  · simp [refresh_clients, h]
  · simp [refresh_groups, h]

/-- Witness for C7 at a concrete stopped application state. -/
theorem claim_C7_witness :
    refresh_clients demoAppStopped = { demoAppStopped with clients_panel := [] }
    ∧ refresh_groups demoAppStopped = { demoAppStopped with groups_panel := [] } :=
  claim_C7_refresh_without_server demoAppStopped rfl

/-- C8: with an active server, the client refresh replaces the clients-panel
snapshot wholesale with one row per server-reported client, in
server-reported order, each row being {id, name, roles, group_id} with
group_id the id of the client's group when it has one and none otherwise;
the result does not depend on the previous panel contents. -/
theorem claim_C8_refresh_clients_snapshot (a : AppState) (d : SendspinServer)
    (h : a.server = some d) :
    (refresh_clients a).clients_panel = d.clients.map mkClientSnapshot
    ∧ ∀ p : List ClientSnapshot,
        (refresh_clients { a with clients_panel := p }).clients_panel
          = d.clients.map mkClientSnapshot := by
  constructor
  · simp [refresh_clients, h]
  · intro p
    simp [refresh_clients, h]

/-- Witness for C8 at the concrete demo state with one connected client. -/
theorem claim_C8_witness :
    (refresh_clients demoApp).clients_panel = demoServer.clients.map mkClientSnapshot
    ∧ ∀ p : List ClientSnapshot,
        (refresh_clients { demoApp with clients_panel := p }).clients_panel
          = demoServer.clients.map mkClientSnapshot :=
  claim_C8_refresh_clients_snapshot demoApp demoServer rfl

/-- C9: whenever the server-stop submission completes — with a result or with
an error — every outstanding unsubscribe token is invoked, the registry is
cleared, the server reference is dropped, the running toggle is reset, and
both panel snapshots are cleared. -/
theorem claim_C9_stop_server_teardown (a : AppState) (e : Option String) :
    (stop_server_on_complete a e).invoked_unsubs
      = a.invoked_unsubs ++ a.event_unsubscribers
    ∧ (stop_server_on_complete a e).event_unsubscribers = []
    ∧ (stop_server_on_complete a e).server = none
    ∧ (stop_server_on_complete a e).server_running = false
    ∧ (stop_server_on_complete a e).clients_panel = []
    ∧ (stop_server_on_complete a e).groups_panel = [] := by
  cases e with
  | none => exact ⟨rfl, rfl, rfl, rfl, rfl, rfl⟩
  | some s => exact ⟨rfl, rfl, rfl, rfl, rfl, rfl⟩

/-- C10: pressing the stream-file action invokes the callback exactly when
the trimmed file-path entry is non-empty and names an existing path; in that
case it passes the trimmed path and the trimmed group entry, with a blank
group entry passed as the group id "all"; otherwise it is a silent no-op. -/
theorem claim_C10_stream_file_guard (fe ge : String) (fsExists : String → Bool) :
    (stream_file fe ge fsExists
      = if fe.trim ≠ "" ∧ fsExists fe.trim = true
        then some (fe.trim, if ge.trim = "" then "all" else ge.trim)
        else none)
    ∧ ((stream_file fe ge fsExists).isSome
        ↔ (fe.trim ≠ "" ∧ fsExists fe.trim = true)) := by
  have hmain : stream_file fe ge fsExists
      = if fe.trim ≠ "" ∧ fsExists fe.trim = true
        then some (fe.trim, if ge.trim = "" then "all" else ge.trim)
        else none := by
    unfold stream_file
    by_cases h1 : fe.trim = ""
    · simp [h1]
    · by_cases h2 : fsExists fe.trim = true
      · by_cases h3 : ge.trim = ""
        · simp [h1, h2, h3]
        · simp [h1, h2, h3]
      · simp [h1, h2]
  refine ⟨hmain, ?_⟩
  rw [hmain]
  by_cases h : fe.trim ≠ "" ∧ fsExists fe.trim = true
  · simp [h]
  · simp [h]

/-- Checking a candidate id against the collected groups is exactly a
membership test on the collected ids. -/
theorem any_group_id_iff (acc : List SendspinGroup) (gid : String) :
    (acc.any (fun h => h.group_id == gid) = true)
      ↔ gid ∈ acc.map SendspinGroup.group_id := by
  constructor
  · intro h
    rcases List.any_eq_true.mp h with ⟨g, hg, hpred⟩
    have hid : g.group_id = gid := by simpa using hpred
    rw [← hid]
    exact List.mem_map_of_mem SendspinGroup.group_id hg
  · intro h
    rcases List.mem_map.mp h with ⟨g, hg, hid⟩
    exact List.any_eq_true.mpr ⟨g, hg, by simpa using hid⟩

/-- The ids of the groups collected by the scan are the first-occurrence
deduplication of the encountered ids, for any starting accumulator. -/
theorem collect_foldl_ids (d : SendspinServer) :
    ∀ (cls : List SendspinClient) (acc : List SendspinGroup),
      (cls.foldl (collectStep d) acc).map SendspinGroup.group_id
        = (cls.filterMap (fun c => (d.clientGroup c).map SendspinGroup.group_id)).foldl
            dedupStep (acc.map SendspinGroup.group_id) := by
  intro cls
  induction cls with
  | nil => intro acc; rfl
  | cons c t ih =>
    intro acc
    rw [List.foldl_cons]
    cases hg : d.clientGroup c with
    | none =>
      have hstep : collectStep d acc c = acc := by
        simp [collectStep, hg]
      rw [hstep]
      have hfm : (c :: t).filterMap
            (fun c => (d.clientGroup c).map SendspinGroup.group_id)
          = t.filterMap (fun c => (d.clientGroup c).map SendspinGroup.group_id) := by
        simp [List.filterMap_cons, hg]
      rw [hfm, ih acc]
    | some g =>
      have hfm : (c :: t).filterMap
            (fun c => (d.clientGroup c).map SendspinGroup.group_id)
          = g.group_id
              :: t.filterMap (fun c => (d.clientGroup c).map SendspinGroup.group_id) := by
        simp [List.filterMap_cons, hg]
      rw [hfm, List.foldl_cons]
      by_cases hmem : g.group_id ∈ acc.map SendspinGroup.group_id
      · have hany : acc.any (fun h => h.group_id == g.group_id) = true :=
          (any_group_id_iff acc g.group_id).mpr hmem
        have hstep : collectStep d acc c = acc := by
          simp [collectStep, hg, hany]
        have hd : dedupStep (acc.map SendspinGroup.group_id) g.group_id
            = acc.map SendspinGroup.group_id := by
          simp [dedupStep, hmem]
        rw [hstep, hd, ih acc]
      · have hany : acc.any (fun h => h.group_id == g.group_id) = false := by
          rw [← Bool.not_eq_true]
          intro hcon
          exact hmem ((any_group_id_iff acc g.group_id).mp hcon)
        have hstep : collectStep d acc c = acc ++ [g] := by
          simp [collectStep, hg, hany]
        have hd : dedupStep (acc.map SendspinGroup.group_id) g.group_id
            = acc.map SendspinGroup.group_id ++ [g.group_id] := by
          simp [dedupStep, hmem]
        rw [hstep, hd, ih (acc ++ [g]), List.map_append]
        rfl

/-- Membership in the first-occurrence deduplication fold. -/
theorem mem_foldl_dedupStep :
    ∀ (l acc : List String) (x : String),
      x ∈ l.foldl dedupStep acc ↔ x ∈ acc ∨ x ∈ l := by
  intro l
  induction l with
  | nil =>
    intro acc x
    simp
  | cons a t ih =>
    intro acc x
    rw [List.foldl_cons]
    by_cases h : a ∈ acc
    · have hd : dedupStep acc a = acc := by simp [dedupStep, h]
      rw [hd, ih acc x, List.mem_cons]
      constructor
      · rintro (hx | hx)
        · exact Or.inl hx
        · exact Or.inr (Or.inr hx)
      · rintro (hx | hx | hx)
        · exact Or.inl hx
        · subst hx; exact Or.inl h
        · exact Or.inr hx
    · have hd : dedupStep acc a = acc ++ [a] := by simp [dedupStep, h]
      rw [hd, ih (acc ++ [a]) x, List.mem_append, List.mem_singleton, List.mem_cons]
      constructor
      · rintro ((hx | hx) | hx)
        · exact Or.inl hx
        · exact Or.inr (Or.inl hx)
        · exact Or.inr (Or.inr hx)
      · rintro (hx | hx | hx)
        · exact Or.inl (Or.inl hx)
        · exact Or.inl (Or.inr hx)
        · exact Or.inr hx

/-- The first-occurrence deduplication fold produces no duplicates. -/
theorem nodup_foldl_dedupStep :
    ∀ (l acc : List String), acc.Nodup → (l.foldl dedupStep acc).Nodup := by
  intro l
  induction l with
  | nil =>
    intro acc h
    exact h
  | cons a t ih =>
    intro acc h
    rw [List.foldl_cons]
    by_cases ha : a ∈ acc
    · have hd : dedupStep acc a = acc := by simp [dedupStep, ha]
      rw [hd]
      exact ih acc h
    · have hd : dedupStep acc a = acc ++ [a] := by simp [dedupStep, ha]
      rw [hd]
      refine ih (acc ++ [a]) ?_
      simp [List.nodup_append, h, ha]

/-- Every group the scan collects comes from some scanned client's live group
back-reference (or was already in the accumulator). -/
theorem collect_foldl_sound (d : SendspinServer) :
    ∀ (cls : List SendspinClient) (acc : List SendspinGroup) (g : SendspinGroup),
      g ∈ cls.foldl (collectStep d) acc →
      g ∈ acc ∨ ∃ c ∈ cls, d.clientGroup c = some g := by
  intro cls
  induction cls with
  | nil =>
    intro acc g hg
    exact Or.inl hg
  | cons c t ih =>
    intro acc g hg
    rw [List.foldl_cons] at hg
    rcases ih (collectStep d acc c) g hg with hmem | ⟨c1, hc1, hcg⟩
    · cases hgc : d.clientGroup c with
      | none =>
        have hstep : collectStep d acc c = acc := by simp [collectStep, hgc]
        rw [hstep] at hmem
        exact Or.inl hmem
      | some g1 =>
        by_cases hany : acc.any (fun h => h.group_id == g1.group_id) = true
        · have hstep : collectStep d acc c = acc := by simp [collectStep, hgc, hany]
          rw [hstep] at hmem
          exact Or.inl hmem
        · have hany2 : acc.any (fun h => h.group_id == g1.group_id) = false := by
            rw [← Bool.not_eq_true]; exact hany
          have hstep : collectStep d acc c = acc ++ [g1] := by
            simp [collectStep, hgc, hany2]
          rw [hstep, List.mem_append, List.mem_singleton] at hmem
          rcases hmem with hmem | rfl
          · exact Or.inl hmem
          · exact Or.inr ⟨c, List.mem_cons_self c t, hgc⟩
    · exact Or.inr ⟨c1, List.mem_cons_of_mem c hc1, hcg⟩

/-- A live client's group back-reference dereferences to a group that the
id lookup finds under its own id. -/
theorem clientGroup_findGroup (d : SendspinServer) (c : SendspinClient)
    (g : SendspinGroup) (h : d.clientGroup c = some g) :
    d.findGroup g.group_id = some g := by
  unfold SendspinServer.clientGroup at h
  cases hc : c.group_id with
  | none =>
    rw [hc] at h
    cases h
  | some gid =>
    rw [hc] at h
    simp only [Option.some_bind] at h
    have hpred := List.find?_some h
    have hid : g.group_id = gid := by simpa using hpred
    rw [hid]
    exact h

/-- Every row of the groups snapshot is the snapshot of the live group that
its id dereferences to. -/
theorem refreshGroupsList_sound (d : SendspinServer) (snap : GroupSnapshot)
    (h : snap ∈ refreshGroupsList d) :
    ∃ g, d.findGroup snap.id = some g ∧ snap = mkGroupSnapshot g := by
  unfold refreshGroupsList at h
  rcases List.mem_map.mp h with ⟨g, hg, rfl⟩
  rcases collect_foldl_sound d d.clients [] g hg with h0 | ⟨c, _, hcg⟩
  · cases h0
  · exact ⟨g, clientGroup_findGroup d c g hcg, rfl⟩

/-- The ids of the groups snapshot are the first-occurrence deduplication of
the ids encountered while scanning the clients in order. -/
theorem refreshGroupsList_ids (d : SendspinServer) :
    (refreshGroupsList d).map GroupSnapshot.id = dedupFirst (scanIds d) := by
  unfold refreshGroupsList dedupFirst scanIds collectGroups
  rw [List.map_map]
  have hcomp : GroupSnapshot.id ∘ mkGroupSnapshot = SendspinGroup.group_id := rfl
  rw [hcomp]
  simpa using collect_foldl_ids d d.clients []

/-- A group id is encountered by the scan exactly when some client's
back-reference dereferences to a live group carrying it. -/
theorem mem_scanIds (d : SendspinServer) (gid : String) :
    gid ∈ scanIds d
      ↔ ∃ c ∈ d.clients, ∃ g, d.clientGroup c = some g ∧ g.group_id = gid := by
  unfold scanIds
  simp only [List.mem_filterMap, Option.map_eq_some']

/-- A group id appears in the snapshot exactly when some client references
it, and then it appears in the snapshot exactly once. -/
theorem mem_refreshGroupsList_ids (d : SendspinServer) (gid : String) :
    gid ∈ (refreshGroupsList d).map GroupSnapshot.id
      ↔ ∃ c ∈ d.clients, ∃ g, d.clientGroup c = some g ∧ g.group_id = gid := by
  rw [refreshGroupsList_ids d]
  unfold dedupFirst
  rw [mem_foldl_dedupStep]
  simp [mem_scanIds]

/-- C2: the groups snapshot contains a group exactly once iff at least one
client currently references it through its group back-reference; the groups
are listed in first-encountered-while-scanning-clients order (their ids are
the first-occurrence deduplication of the scan sequence); and every row
carries the fields {id, name, state, volume, muted, memberIds} of the live
group its id dereferences to. -/
theorem claim_C2_group_snapshot (d : SendspinServer) :
    ((refreshGroupsList d).map GroupSnapshot.id = dedupFirst (scanIds d))
    ∧ (∀ gid : String,
        ((refreshGroupsList d).map GroupSnapshot.id).count gid = 1
          ↔ ∃ c ∈ d.clients, ∃ g, d.clientGroup c = some g ∧ g.group_id = gid)
    ∧ (∀ snap ∈ refreshGroupsList d,
        ∃ g, d.findGroup snap.id = some g ∧ snap = mkGroupSnapshot g) := by
  refine ⟨refreshGroupsList_ids d, ?_, fun snap h => refreshGroupsList_sound d snap h⟩
  intro gid
  have hnd : ((refreshGroupsList d).map GroupSnapshot.id).Nodup := by
    rw [refreshGroupsList_ids d]
    exact nodup_foldl_dedupStep (scanIds d) [] List.nodup_nil
  constructor
  · intro hcount
    have hpos : 0 < ((refreshGroupsList d).map GroupSnapshot.id).count gid := by
      omega
    exact (mem_refreshGroupsList_ids d gid).mp (List.count_pos_iff.mp hpos)
  · intro hex
    exact List.count_eq_one_of_mem hnd ((mem_refreshGroupsList_ids d gid).mpr hex)

/-- Pointwise identity map. -/
theorem map_eq_self_of_eq {α : Type} (f : α → α) :
    ∀ (l : List α), (∀ a ∈ l, f a = a) → l.map f = l := by
  intro l
  induction l with
  | nil =>
    intro _
    rfl
  | cons a t ih =>
    intro h
    rw [List.map_cons, h a (List.mem_cons_self a t),
      ih (fun x hx => h x (List.mem_cons_of_mem a hx))]

/-- The per-client update of group.addClient preserves the client id. -/
theorem add_client_update_id (gid cid : String) (c : SendspinClient) :
    (if c.client_id == cid then { c with group_id := some gid } else c).client_id
      = c.client_id := by
  by_cases h : c.client_id = cid
  · simp [h]
  · simp [h]

/-- Folding one more addClient update into the cumulative client update. -/
theorem update_comp (gid cid : String) (cids : List String) (c : SendspinClient) :
    updateIfMem gid cids
        (if c.client_id == cid then { c with group_id := some gid } else c)
      = updateIfMem gid (cid :: cids) c := by
  by_cases h1 : c.client_id = cid
  · by_cases h2 : c.client_id ∈ cids
    · simp [updateIfMem, h1, h2]
    · simp [updateIfMem, h1, h2]
  · by_cases h2 : c.client_id ∈ cids
    · simp [updateIfMem, h1, h2]
    · simp [updateIfMem, h1, h2]

/-- Folding one more addClient update into the cumulative group update. -/
theorem group_update_comp (gid cid : String) (cids : List String) (g : SendspinGroup) :
    (if (if g.group_id == gid then { g with clients := g.clients ++ [cid] } else g).group_id
          == gid
      then { (if g.group_id == gid then { g with clients := g.clients ++ [cid] } else g) with
              clients := (if g.group_id == gid
                then { g with clients := g.clients ++ [cid] } else g).clients ++ cids }
      else (if g.group_id == gid then { g with clients := g.clients ++ [cid] } else g))
      = if g.group_id == gid then { g with clients := g.clients ++ (cid :: cids) } else g := by
  by_cases h : g.group_id = gid
  · simp [h, List.append_assoc]
  · simp [h]

/-- get_client finds a client exactly when one with that id is present. -/
theorem get_client_isSome_iff (d : SendspinServer) (cid : String) :
    (d.get_client cid).isSome = true ↔ ∃ c ∈ d.clients, c.client_id = cid := by
  unfold SendspinServer.get_client
  rw [List.find?_isSome]
  constructor
  · rintro ⟨c, hc, hp⟩
    exact ⟨c, hc, by simpa using hp⟩
  · rintro ⟨c, hc, hp⟩
    exact ⟨c, hc, by simpa using hp⟩

/-- The group-creation loop, run from any state in which every listed client
id is present: each listed client ends up pointing at the group, and every
group carrying the target id has all the listed ids appended to its member
list in order. -/
theorem create_group_fold (gid : String) :
    ∀ (cids : List String) (s : SendspinServer),
      (∀ cid ∈ cids, ∃ c ∈ s.clients, c.client_id = cid) →
      cids.foldl
          (fun acc cid =>
            if (acc.get_client cid).isSome then add_client acc gid cid else acc) s
        = ⟨s.clients.map (updateIfMem gid cids),
           s.groups.map (fun g => if g.group_id == gid
              then { g with clients := g.clients ++ cids } else g)⟩ := by
  intro cids
  induction cids with
  | nil =>
    intro s hex
    rw [List.foldl_nil]
    have h1 : s.clients.map (updateIfMem gid []) = s.clients :=
      map_eq_self_of_eq _ s.clients (fun c _ => by simp [updateIfMem])
    have h2 : s.groups.map (fun g => if g.group_id == gid
          then { g with clients := g.clients ++ [] } else g) = s.groups :=
      map_eq_self_of_eq _ s.groups (fun g _ => by
        by_cases h : g.group_id = gid
        · have hb : (g.group_id == gid) = true := by simp [h]
          rw [if_pos hb, List.append_nil]
        · have hb : ¬ ((g.group_id == gid) = true) := by simp [h]
          rw [if_neg hb])
    rw [h1, h2]
  | cons cid rest ih =>
    intro s hex
    rw [List.foldl_cons]
    have hsome : (s.get_client cid).isSome = true :=
      (get_client_isSome_iff s cid).mpr (hex cid (List.mem_cons_self cid rest))
    rw [if_pos hsome]
    have hexrest : ∀ cid2 ∈ rest,
        ∃ c ∈ (add_client s gid cid).clients, c.client_id = cid2 := by
      intro cid2 hc2
      rcases hex cid2 (List.mem_cons_of_mem cid hc2) with ⟨c, hc, hid⟩
      refine ⟨if c.client_id == cid then { c with group_id := some gid } else c,
        List.mem_map_of_mem _ hc, ?_⟩
      rw [add_client_update_id]
      exact hid
    rw [ih (add_client s gid cid) hexrest]
    have hcl : ((add_client s gid cid).clients).map (updateIfMem gid rest)
        = s.clients.map (updateIfMem gid (cid :: rest)) := by
      show ((s.clients.map fun c =>
          if c.client_id == cid then { c with group_id := some gid } else c).map
            (updateIfMem gid rest)) = _
      rw [List.map_map]
      exact List.map_congr_left (fun c _ => update_comp gid cid rest c)
    have hgr : ((add_client s gid cid).groups).map (fun g => if g.group_id == gid
          then { g with clients := g.clients ++ rest } else g)
        = s.groups.map (fun g => if g.group_id == gid
            then { g with clients := g.clients ++ (cid :: rest) } else g) := by
      show ((s.groups.map fun g =>
          if g.group_id == gid then { g with clients := g.clients ++ [cid] } else g).map
            (fun g => if g.group_id == gid
              then { g with clients := g.clients ++ rest } else g)) = _
      rw [List.map_map]
      exact List.map_congr_left (fun g _ => group_update_comp gid cid rest g)
    rw [hcl, hgr]

/-- app._create_group on a fresh group id: the resulting domain state has the
listed clients re-pointed at the new group and the new group appended with
exactly the listed member ids in order; no pre-existing group changes. -/
theorem create_group_spec (d : SendspinServer) (gid gname st : String) (vol : Int)
    (mtd : Bool) (cids : List String)
    (hex : ∀ cid ∈ cids, ∃ c ∈ d.clients, c.client_id = cid)
    (hfresh : ∀ g ∈ d.groups, g.group_id ≠ gid) :
    create_group d gid gname st vol mtd cids
      = ⟨d.clients.map (updateIfMem gid cids),
         d.groups ++ [⟨gid, gname, st, vol, mtd, cids⟩]⟩ := by
  have hfold := create_group_fold gid cids
      (⟨d.clients, d.groups ++ [⟨gid, gname, st, vol, mtd, []⟩]⟩ : SendspinServer) hex
  unfold create_group
  rw [hfold]
  have hgr : (d.groups ++ [(⟨gid, gname, st, vol, mtd, []⟩ : SendspinGroup)]).map
        (fun g => if g.group_id == gid then { g with clients := g.clients ++ cids } else g)
      = d.groups ++ [(⟨gid, gname, st, vol, mtd, cids⟩ : SendspinGroup)] := by
    rw [List.map_append]
    have h1 : d.groups.map (fun g => if g.group_id == gid
          then { g with clients := g.clients ++ cids } else g) = d.groups :=
      map_eq_self_of_eq _ d.groups (fun g hg => by simp [hfresh g hg])
    rw [h1]
    simp
  show (⟨d.clients.map (updateIfMem gid cids),
      (d.groups ++ [(⟨gid, gname, st, vol, mtd, []⟩ : SendspinGroup)]).map
        (fun g => if g.group_id == gid
          then { g with clients := g.clients ++ cids } else g)⟩ : SendspinServer)
    = ⟨d.clients.map (updateIfMem gid cids),
       d.groups ++ [(⟨gid, gname, st, vol, mtd, cids⟩ : SendspinGroup)]⟩
  rw [hgr]

/-- Looking a fresh id up after appending the fresh group finds it. -/
theorem findGroup_append_fresh (cl : List SendspinClient) (gs : List SendspinGroup)
    (g0 : SendspinGroup) (hfresh : ∀ g ∈ gs, g.group_id ≠ g0.group_id) :
    SendspinServer.findGroup ⟨cl, gs ++ [g0]⟩ g0.group_id = some g0 := by
  unfold SendspinServer.findGroup
  rw [List.find?_append]
  have h1 : gs.find? (fun g => g.group_id == g0.group_id) = none := by
    rw [List.find?_eq_none]
    intro g hg
    simp [hfresh g hg]
  rw [h1]
  simp

/-- The cumulative client update points a listed client at the group. -/
theorem updateIfMem_group_id (gid : String) (cids : List String) (c : SendspinClient)
    (h : c.client_id ∈ cids) :
    updateIfMem gid cids c = { c with group_id := some gid } := by
  simp [updateIfMem, h]

/-- A group id the lookup resolves, referenced by at least one client, has
exactly one snapshot row, and that row is the snapshot of the resolved
group. -/
theorem snapshot_of_ref (d : SendspinServer) (gid : String) (g : SendspinGroup)
    (hfind : d.findGroup gid = some g)
    (href : ∃ c ∈ d.clients, ∃ g2, d.clientGroup c = some g2 ∧ g2.group_id = gid) :
    ∃ snap ∈ refreshGroupsList d, snap.id = gid ∧ snap = mkGroupSnapshot g := by
  have hmem : gid ∈ (refreshGroupsList d).map GroupSnapshot.id :=
    (mem_refreshGroupsList_ids d gid).mpr href
  rcases List.mem_map.mp hmem with ⟨snap, hsnap, hid⟩
  rcases refreshGroupsList_sound d snap hsnap with ⟨g2, hfind2, heq⟩
  rw [hid, hfind] at hfind2
  have hg2 : g = g2 := Option.some.inj hfind2
  exact ⟨snap, hsnap, hid, by rw [heq, ← hg2]⟩

/-- A list with at least two distinct elements has a member different from
any given value. -/
theorem exists_other {l : List String} (hnd : l.Nodup) (h2 : 2 ≤ l.length)
    (x : String) : ∃ y ∈ l, y ≠ x := by
  rcases l with _ | ⟨a, _ | ⟨b, t⟩⟩
  · simp at h2
  · simp at h2
  · have hab : a ≠ b := by
      have := (List.nodup_cons.mp hnd).1
      intro h
      exact this (h ▸ List.mem_cons_self b t)
    by_cases hax : a = x
    · refine ⟨b, List.mem_cons_of_mem a (List.mem_cons_self b t), ?_⟩
      rw [← hax]
      exact fun h => hab h.symm
    · exact ⟨a, List.mem_cons_self a (b :: t), hax⟩

/-- Removing one occurrence from a duplicate-free list by filtering drops the
length by exactly one. -/
theorem length_filter_ne :
    ∀ (l : List String), l.Nodup → ∀ x ∈ l,
      (l.filter (fun y => y != x)).length = l.length - 1 := by
  intro l
  induction l with
  | nil =>
    intro _ x hx
    cases hx
  | cons a t ih =>
    intro hnd x hx
    rcases List.nodup_cons.mp hnd with ⟨ha, hndt⟩
    rcases List.mem_cons.mp hx with rfl | hxt
    · rw [List.filter_cons_of_neg (by simp)]
      have hkeep : t.filter (fun y => y != x) = t := by
        rw [List.filter_eq_self]
        intro y hy
        simp only [bne_iff_ne, ne_eq]
        intro hyx
        exact ha (hyx ▸ hy)
      rw [hkeep]
      simp
    · have hax : a ≠ x := fun h => ha (h ▸ hxt)
      rw [List.filter_cons_of_pos (by simp [hax])]
      rw [List.length_cons, List.length_cons, ih hndt x hxt]
      have hlen : 1 ≤ t.length := by
        have : t ≠ [] := List.ne_nil_of_mem hxt
        have := List.length_pos.mpr this
        omega
      omega

/-- C4 (amended): for every non-empty duplicate-free list of client ids that
all name existing clients, creating a new group (fresh id) with those clients
and reading the group snapshot yields memberIds equal to the listed ids, so
of length N in insertion order; and when N is at least 2, removing one member
and refreshing yields memberIds of length N - 1 preserving the relative
order of the remaining members.  (For N = 1 the group disappears from the
snapshot entirely — see the counterexample.) -/
theorem claim_C4_group_round_trip (d : SendspinServer) (cids : List String)
    (gid gname st : String) (vol : Int) (mtd : Bool) (cid0 : String)
    (hne : cids ≠ []) (hnd : cids.Nodup)
    (hex : ∀ cid ∈ cids, ∃ c ∈ d.clients, c.client_id = cid)
    (hfresh : ∀ g ∈ d.groups, g.group_id ≠ gid)
    (h0 : cid0 ∈ cids) :
    (∃ snap ∈ refreshGroupsList (create_group d gid gname st vol mtd cids),
        snap.id = gid ∧ snap.memberIds = cids
        ∧ snap.memberIds.length = cids.length)
    ∧ (2 ≤ cids.length →
        ∃ snap ∈ refreshGroupsList
            (ungroup (create_group d gid gname st vol mtd cids) cid0),
          snap.id = gid ∧ snap.memberIds = cids.filter (fun x => x != cid0)
          ∧ snap.memberIds.length = cids.length - 1) := by
  have hspec := create_group_spec d gid gname st vol mtd cids hex hfresh
  constructor
  · rw [hspec]
    have hfind : SendspinServer.findGroup
        ⟨d.clients.map (updateIfMem gid cids),
         d.groups ++ [⟨gid, gname, st, vol, mtd, cids⟩]⟩ gid
        = some ⟨gid, gname, st, vol, mtd, cids⟩ :=
      findGroup_append_fresh _ d.groups _ hfresh
    rcases List.exists_mem_of_ne_nil cids hne with ⟨cid1, hcid1⟩
    rcases hex cid1 hcid1 with ⟨c, hc, hcid⟩
    have href : ∃ c2 ∈ (⟨d.clients.map (updateIfMem gid cids),
          d.groups ++ [⟨gid, gname, st, vol, mtd, cids⟩]⟩ : SendspinServer).clients,
        ∃ g2, SendspinServer.clientGroup
            ⟨d.clients.map (updateIfMem gid cids),
             d.groups ++ [⟨gid, gname, st, vol, mtd, cids⟩]⟩ c2 = some g2
          ∧ g2.group_id = gid := by
      refine ⟨updateIfMem gid cids c, List.mem_map_of_mem _ hc,
        ⟨gid, gname, st, vol, mtd, cids⟩, ?_, rfl⟩
      rw [updateIfMem_group_id gid cids c (by rw [hcid]; exact hcid1)]
      unfold SendspinServer.clientGroup
      rw [Option.some_bind]
      exact hfind
    rcases snapshot_of_ref _ gid _ hfind href with ⟨snap, hsnap, hid, heq⟩
    exact ⟨snap, hsnap, hid, by rw [heq]; rfl, by rw [heq]; rfl⟩
  · intro h2
    rw [hspec]
    have hfind : SendspinServer.findGroup
        (ungroup ⟨d.clients.map (updateIfMem gid cids),
          d.groups ++ [⟨gid, gname, st, vol, mtd, cids⟩]⟩ cid0) gid
        = some ⟨gid, gname, st, vol, mtd, cids.filter (fun x => x != cid0)⟩ := by
      show ((d.groups ++ [(⟨gid, gname, st, vol, mtd, cids⟩ : SendspinGroup)]).map
          (fun g => { g with clients := g.clients.filter (fun x => x != cid0) })).find?
          (fun g => g.group_id == gid)
        = some (⟨gid, gname, st, vol, mtd,
            cids.filter (fun x => x != cid0)⟩ : SendspinGroup)
      rw [List.map_append]
      rw [List.find?_append]
      have h1 : (d.groups.map
            (fun g => { g with clients := g.clients.filter (fun x => x != cid0) })).find?
            (fun g => g.group_id == gid) = none := by
        rw [List.find?_eq_none]
        intro g hg
        rcases List.mem_map.mp hg with ⟨g1, hg1, rfl⟩
        simp [hfresh g1 hg1]
      rw [h1]
      simp
    rcases exists_other hnd h2 cid0 with ⟨cid1, hcid1, hne1⟩
    rcases hex cid1 hcid1 with ⟨c, hc, hcid⟩
    have href : ∃ c2 ∈ (ungroup ⟨d.clients.map (updateIfMem gid cids),
          d.groups ++ [⟨gid, gname, st, vol, mtd, cids⟩]⟩ cid0).clients,
        ∃ g2, SendspinServer.clientGroup
            (ungroup ⟨d.clients.map (updateIfMem gid cids),
              d.groups ++ [⟨gid, gname, st, vol, mtd, cids⟩]⟩ cid0) c2 = some g2
          ∧ g2.group_id = gid := by
      have hc1mem : updateIfMem gid cids c
          ∈ d.clients.map (updateIfMem gid cids) :=
        List.mem_map_of_mem _ hc
      have hcup : updateIfMem gid cids c = { c with group_id := some gid } :=
        updateIfMem_group_id gid cids c (by rw [hcid]; exact hcid1)
      have hid0 : ((updateIfMem gid cids c).client_id == cid0) = false := by
        rw [hcup]
        show (c.client_id == cid0) = false
        rw [hcid]
        simp [hne1]
      have himg : (if ((updateIfMem gid cids c).client_id == cid0) = true
            then { updateIfMem gid cids c with group_id := none }
            else updateIfMem gid cids c)
          = updateIfMem gid cids c := by
        rw [hid0]
        simp
      refine ⟨updateIfMem gid cids c, List.mem_map.mpr ⟨updateIfMem gid cids c, hc1mem, himg⟩,
        ⟨gid, gname, st, vol, mtd, cids.filter (fun x => x != cid0)⟩, ?_, rfl⟩
      unfold SendspinServer.clientGroup
      rw [hcup]
      rw [Option.some_bind]
      exact hfind
    rcases snapshot_of_ref _ gid _ hfind href with ⟨snap, hsnap, hid, heq⟩
    refine ⟨snap, hsnap, hid, by rw [heq]; rfl, ?_⟩
    rw [heq]
    show (cids.filter (fun x => x != cid0)).length = cids.length - 1
    exact length_filter_ne cids hnd cid0 h0

/-- Witness for C4 at two concrete clients grouped into a fresh group and one
of them subsequently removed. -/
theorem claim_C4_witness :
    (∃ snap ∈ refreshGroupsList (create_group
          ⟨[⟨"c1", "n1", [], none⟩, ⟨"c2", "n2", [], none⟩], []⟩
          "g1" "Kitchen" "idle" 100 false ["c1", "c2"]),
        snap.id = "g1" ∧ snap.memberIds = ["c1", "c2"]
        ∧ snap.memberIds.length = (["c1", "c2"] : List String).length)
    ∧ (2 ≤ (["c1", "c2"] : List String).length →
        ∃ snap ∈ refreshGroupsList (ungroup (create_group
              ⟨[⟨"c1", "n1", [], none⟩, ⟨"c2", "n2", [], none⟩], []⟩
              "g1" "Kitchen" "idle" 100 false ["c1", "c2"]) "c1"),
          snap.id = "g1"
          ∧ snap.memberIds = (["c1", "c2"] : List String).filter (fun x => x != "c1")
          ∧ snap.memberIds.length = (["c1", "c2"] : List String).length - 1) :=
  claim_C4_group_round_trip
    ⟨[⟨"c1", "n1", [], none⟩, ⟨"c2", "n2", [], none⟩], []⟩ ["c1", "c2"]
    "g1" "Kitchen" "idle" 100 false "c1"
    (by decide) (by decide) (by decide) (by decide) (by decide)

/-- C4 counterexample: the claim as stated quantifies over every non-empty
list; with a single-member group (N = 1) removing the one member makes the
group disappear from the snapshot entirely, so no row for it — in particular
none with memberIds of length N - 1 = 0 — exists after the refresh. -/
theorem claim_C4_counterexample :
    ¬ ∃ snap ∈ refreshGroupsList (ungroup
        (create_group ⟨[⟨"c1", "n1", [], none⟩], []⟩
          "g1" "Kitchen" "idle" 100 false ["c1"]) "c1"),
      snap.id = "g1" ∧ snap.memberIds.length = 0 := by
  decide

end SendspinGui
